import Mathlib

/-!
Verification of the ATC_MiThermometer (PVVX) BLE advertisement dashboard:
a shallow embedding of the decoder, the per-device registry, the grid
placement and the windowed print pipeline, with theorems checking the
specification's claims against the code's behaviour.

Conventions of the embedding:
* byte sequences are `List ℕ` (each byte `< 256` where a claim needs it);
  Python slicing `b[a:c]` becomes `(b.drop a).take (c - a)`, which like
  Python silently truncates at the end of the list;
* `int.from_bytes(_, "little", signed)` becomes `fromBytesLE` /
  `signedFromBytesLE`; `int.from_bytes` of an empty slice is `0`;
* wall-clock timestamps and float seconds are exact rationals `ℚ`;
  Python's `round` (banker's rounding, half to even) is `pythonRound`;
* the mutable dicts `atc_counters` / `atc_date` of `main.py` become the
  explicit state `RegState`, and the body of `callback` a pure step
  function.
-/

namespace MiTherm

/-- Python slice `l[a:b]` for `0 ≤ a ≤ b` (truncates at the end like Python). -/
def listSlice (l : List ℕ) (a b : ℕ) : List ℕ :=
  (l.drop a).take (b - a)

/-- `int.from_bytes(l, byteorder="little", signed=False)`:
little-endian base-256 value of the byte list (empty list gives 0). -/
def fromBytesLE (l : List ℕ) : ℕ :=
  l.foldr (fun b acc => b + 256 * acc) 0

/-- `int.from_bytes(l, byteorder="little", signed=True)`: two's-complement
reading of the little-endian value (empty list gives 0). -/
def signedFromBytesLE (l : List ℕ) : ℤ :=
  let v := fromBytesLE l
  if 2 ^ (8 * l.length) ≤ 2 * v then (v : ℤ) - 2 ^ (8 * l.length) else (v : ℤ)

/-- The structured reading decoded from the service-data bytes
(raw integer fields, before the float scaling). -/
structure Reading where
  temp : ℤ
  humidity : ℤ
  battery_v : ℕ
  battery : ℕ
  count : ℕ
  deriving Repr, DecidableEq

/-- The field extraction of `main.py` lines 61 and 75–84: slices
`adv[6:8]`, `adv[8:10]` signed, `adv[10:12]`, `adv[12:13]`, `adv[13:14]`
unsigned, all little-endian. -/
def decodeReading (adv : List ℕ) : Reading :=
  { temp := signedFromBytesLE (listSlice adv 6 8)
    humidity := signedFromBytesLE (listSlice adv 8 10)
    battery_v := fromBytesLE (listSlice adv 10 12)
    battery := fromBytesLE (listSlice adv 12 13)
    count := fromBytesLE (listSlice adv 13 14) }

/-- `temp = temp / 100.0` (main.py line 86), floats taken as exact rationals. -/
def tempCelsius (r : Reading) : ℚ := (r.temp : ℚ) / 100

/-- `humidity = humidity / 100.0` (main.py line 87). -/
def humidityPercent (r : Reading) : ℚ := (r.humidity : ℚ) / 100

/-- `battery_v = battery_v / 1000.0` (main.py line 88). -/
def batteryVolts (r : Reading) : ℚ := (r.battery_v : ℚ) / 1000

/-- Python's built-in `round` on an exact rational: round half to even
(banker's rounding), as used in `round(date_diff.total_seconds())`
(main.py line 70).  Phrased on the numerator and denominator so that it
evaluates by kernel reduction: with `f = ⌊q⌋`, the fractional part
`q - f` is `(q.num - f * q.den) / q.den`, so comparing it with `1/2`
is comparing `t = 2 * (q.num - f * q.den)` with `q.den`. -/
def pythonRound (q : ℚ) : ℤ :=
  let f := q.floor
  let t := 2 * (q.num - f * (q.den : ℤ))
  if t < (q.den : ℤ) then f
  else if (q.den : ℤ) < t then f + 1
  else if f % 2 = 0 then f else f + 1

/-- The per-device mutable state of `main()`: `atc_counters` (last sequence
counter per address) and `atc_date` (timestamp of last accepted update per
address), both starting empty. -/
structure RegState where
  counters : String → Option ℕ
  dates : String → Option ℚ

/-- The empty maps `atc_counters = {}` and `atc_date = {}` (main.py 14–15). -/
def initState : RegState := ⟨fun _ => none, fun _ => none⟩

/-- What the render branch of `callback` receives when the sequence counter
changed: the decoded reading, `date_diff` and `date_now`.  `elapsed = none`
models the first-observation case where the code sets `date_diff = 0` (the
int), `elapsed = some d` the case `date_diff = timedelta(seconds=d)`. -/
structure UpdateResult where
  reading : Reading
  elapsed : Option ℤ
  timestamp : ℚ
  deriving Repr, DecidableEq

/-- Truthiness of `date_diff` in `if date_diff:` (main.py line 116): the int
`0` of the first observation is falsy, and `timedelta(seconds=d)` is falsy
exactly when `d = 0`. -/
def dateDiffTruthy : Option ℤ → Bool
  | none => false
  | some d => d ≠ 0

/-- Lines 63–74 of main.py for one address: compare the reading's counter
with `atc_counters.get(address)`; if unchanged do nothing, otherwise store
the counter, compute `date_diff` from `atc_date.get(address)` (the int `0`
when absent, the rounded difference otherwise) and store `date_now`. -/
def updateOnSequenceChange (st : RegState) (addr : String) (r : Reading)
    (now : ℚ) : Option UpdateResult × RegState :=
  if st.counters addr = some r.count then (none, st)
  else
    let elapsed := (st.dates addr).map fun prev => pythonRound (now - prev)
    (some ⟨r, elapsed, now⟩,
      { counters := fun a => if a = addr then some r.count else st.counters a
        dates := fun a => if a = addr then some now else st.dates a })

/-- The decode-and-update path of `callback` for one advertisement:
`if not adv_atc: return` (line 35) drops only an empty byte string; any
non-empty service data is decoded by the offset table and handed to the
sequence-change update.  The `Option UpdateResult` is `some` exactly when
the code reaches the render block (lines 101–119). -/
def callbackStep (st : RegState) (addr : String) (adv : List ℕ)
    (now : ℚ) : Option UpdateResult × RegState :=
  if adv = [] then (none, st)
  else updateOnSequenceChange st addr (decodeReading adv) now

/-- A 2-D position, the dicts `{"x": _, "y": _}` of outputs.py.
Python ints, so coordinates are `ℤ`. -/
structure Pos where
  x : ℤ
  y : ℤ
  deriving Repr, DecidableEq

/-- The state of `consoleWindow` (outputs.py 250–267): panel id, panel
size, panel origin `(x, y)`, the window-local cursor `pos` (initially
`(0, 0)`) and `line_height` (initialised to 1). -/
structure Window where
  id : ℤ
  width : ℤ
  height : ℤ
  x : ℤ
  y : ℤ
  pos : Pos
  line_height : ℤ
  deriving Repr, DecidableEq

/-- `consoleWindow.clip_window_pos` (outputs.py 269–275):
`pos["x"] = max(0, min(pos["x"], self.width - 1))` and likewise for `y`. -/
def clipWindowPos (w : Window) (p : Pos) : Pos :=
  ⟨max 0 (min p.x (w.width - 1)), max 0 (min p.y (w.height - 1))⟩

/-- `consoleWindow.get_abs_pos` (outputs.py 277–279): panel origin plus
cursor, clipped. -/
def getAbsPos (w : Window) : Pos :=
  clipWindowPos w ⟨w.x + w.pos.x, w.y + w.pos.y⟩

/-- `consoleWindow.line_cr` (outputs.py 281–284): cursor to column 0,
row advanced by `line_height`, then re-clipped. -/
def lineCr (w : Window) : Window :=
  { w with pos := clipWindowPos w ⟨0, w.pos.y + w.line_height⟩ }

/-- `consoleWindow.print_line` (outputs.py 286–291): optionally jump the
cursor to the clipped explicit position, build the prefixed text
`"[x, y] <text>"` from the cursor, hand `(text, self.pos)` to
`print_method.print_value`, then `line_cr`.  Returns the new window state
and the `(text, position)` pair given to the sink. -/
def printLine (w : Window) (posArg : Option Pos) (text : String) :
    Window × (String × Pos) :=
  let w1 := match posArg with
    | some p => { w with pos := clipWindowPos w p }
    | none => w
  let sent := ("[" ++ toString w1.pos.x ++ ", " ++ toString w1.pos.y ++ "] " ++ text,
    w1.pos)
  (lineCr w1, sent)

/-- One `print_line` call: the optional explicit position and the text. -/
structure PrintCall where
  posArg : Option Pos
  text : String
  deriving Repr, DecidableEq

/-- A sequence of `print_line` calls applied to a window (the sink
outputs are discarded; only the cursor state is tracked). -/
def runCalls (w : Window) (calls : List PrintCall) : Window :=
  calls.foldl (fun win c => (printLine win c.posArg c.text).1) w

/-- The configuration of `consoleWindows` (outputs.py 294–311): grid
origin `(x, y)`, gaps, and the terminal size `cols × rows` queried once
at construction. -/
structure WinMgr where
  x : ℕ
  y : ℕ
  gap_x : ℕ
  gap_y : ℕ
  cols : ℕ
  rows : ℕ
  deriving Repr, DecidableEq

/-- `consoleWindows.add_window` (outputs.py 313–340) for an explicit `id`:
computes how many windows fit per axis, raises (`none`) when
`id > x_max_windows * y_max_windows`, and otherwise places the window at
`x = self.x + width * (id // x_max_windows) + self.gap_x`,
`y = self.y + height * (id % x_max_windows) + self.gap_y`
(the code's own `window_row`/`window_col` names, with `row` used in `x`
and `col` used in `y`). -/
def addWindowPlace (m : WinMgr) (width height id : ℕ) : Option (ℕ × ℕ) :=
  let x_max_windows := m.cols / (m.x + width + m.gap_x)
  let y_max_windows := m.rows / (m.y + height + m.gap_y)
  if x_max_windows * y_max_windows < id then none
  else
    let window_row := id / x_max_windows
    let window_col := id % x_max_windows
    some (m.x + width * window_row + m.gap_x, m.y + height * window_col + m.gap_y)

/-- The inline grid placement of main.py lines 96–100:
`posx = text_width * (id % cols)`, `posy = text_hight * (id // cols) + 1`. -/
def mainGridPlace (text_width text_hight cols id : ℕ) : ℕ × ℕ :=
  (text_width * (id % cols), text_hight * (id / cols) + 1)

/-- `ConsolePrintAsync.print_worker` (outputs.py 159–175) as a function of
the queue contents in FIFO order: dequeue, stop at the `None` sentinel,
otherwise print and continue.  The result is the list of performed writes
in order. -/
def printWorker : List (Option String) → List String
  | [] => []
  | none :: _ => []
  | some m :: rest => m :: printWorker rest

/-- `ConsolePrintAsync.close` (outputs.py 234–247): the queue contents at
the moment the worker drains are the previously enqueued texts followed by
the `None` sentinel that `close` enqueues; `close` returns only after the
worker has consumed up to the sentinel. -/
def closeQueue (msgs : List String) : List (Option String) :=
  msgs.map some ++ [none]

/-- The specification's reading of a signed little-endian 16-bit field
from its two bytes (spec §4.1 offset table), for comparison with the
code's slice-based extraction. -/
def specSigned16LE (lo hi : ℕ) : ℤ :=
  if 2 ^ 15 ≤ lo + 256 * hi then (lo + 256 * hi : ℤ) - 2 ^ 16
  else (lo + 256 * hi : ℤ)

end MiTherm

section Scratch
open MiTherm
example : decodeReading [6, 0, 0x78, 0x78, 0x78, 9, 0x64, 0, 0x80, 0x19, 0xE4, 0x0D, 0x3C, 1] =
    { temp := 100, humidity := 6528, battery_v := 3556, battery := 60, count := 1 } := by
  decide
example : decodeReading (List.replicate 13 0) =
    { temp := 0, humidity := 0, battery_v := 0, battery := 0, count := 0 } := by
  decide
example : signedFromBytesLE [0xFF, 0xFF] = -1 := by decide
example : signedFromBytesLE [200] = -56 := by decide
example : pythonRound (Rat.divInt 1 2) = 0 := by decide
example : pythonRound (Rat.divInt 3 2) = 2 := by decide
example : pythonRound (Rat.divInt 5 2) = 2 := by decide
example : pythonRound (Rat.divInt 7 10) = 1 := by decide
example : pythonRound (Rat.divInt (-1) 2) = 0 := by decide
example : pythonRound (Rat.divInt (-5) 2) = -2 := by decide
example : pythonRound (Rat.divInt 7 2) = 4 := by decide
example : pythonRound 7 = 7 := by decide
example : (callbackStep initState "A" (List.replicate 13 0) 0).1.isSome = true := by decide
example : (callbackStep initState "A" [] 0) = (none, initState) := by rfl
example : (callbackStep initState "A" (List.replicate 13 0) 0).2.counters "A" = some 0 := by
  decide
example : addWindowPlace ⟨0, 0, 9, 0, 120, 40⟩ 21 5 4 = some (30, 0) := by decide
example : addWindowPlace ⟨0, 0, 9, 0, 120, 40⟩ 21 5 0 = some (9, 0) := by decide
example : mainGridPlace 35 13 4 4 = (0, 14) := by decide
example : mainGridPlace 35 13 4 0 = (0, 1) := by decide
example :
    (printLine ⟨0, 21, 10, 5, 3, ⟨0, 0⟩, 1⟩ none "T").2.2 = ⟨0, 0⟩ := by decide
example : getAbsPos ⟨0, 21, 10, 5, 3, ⟨0, 0⟩, 1⟩ = ⟨5, 3⟩ := by decide
example : printWorker (closeQueue ["a", "b", "c"]) = ["a", "b", "c"] := by decide
end Scratch

namespace MiTherm

/-- Python slice `l[i:i+2]` with at least two bytes available is the list
of the two elements at `i` and `i + 1`. -/
lemma listSlice_two (l : List ℕ) (i : ℕ) (h : i + 2 ≤ l.length) :
    listSlice l i (i + 2) = [l.getD i 0, l.getD (i + 1) 0] := by
  induction i generalizing l with
  | zero =>
    match l, h with
    | a :: b :: t, _ => simp [listSlice]
  | succ n ih =>
    match l, h with
    | a :: t, h =>
      have ht : n + 2 ≤ t.length := by
        simpa [Nat.succ_le_succ_iff] using h
      have := ih t ht
      simpa [listSlice] using this

/-- Python slice `l[i:i+1]` with the byte at `i` available is `[l[i]]`. -/
lemma listSlice_one (l : List ℕ) (i : ℕ) (h : i + 1 ≤ l.length) :
    listSlice l i (i + 1) = [l.getD i 0] := by
  induction i generalizing l with
  | zero =>
    match l, h with
    | a :: t, _ => simp [listSlice]
  | succ n ih =>
    match l, h with
    | a :: t, h =>
      have ht : n + 1 ≤ t.length := by
        simpa [Nat.succ_le_succ_iff] using h
      have := ih t ht
      simpa [listSlice] using this

/-- The code's signed two-byte little-endian decode agrees with the
specification's signed 16-bit reading of the same two bytes. -/
lemma signedFromBytesLE_pair (a b : ℕ) :
    signedFromBytesLE [a, b] = specSigned16LE a b := by
  simp only [signedFromBytesLE, fromBytesLE, specSigned16LE, List.foldr,
    List.length_cons, List.length_nil]
  split_ifs with h1 h2 <;> [skip; skip; skip; rfl] <;> [push_cast; skip; skip] <;> omega

/-- One-byte unsigned decode is the byte itself. -/
lemma fromBytesLE_single (a : ℕ) : fromBytesLE [a] = a := by
  simp [fromBytesLE]

/-- Two-byte unsigned little-endian decode. -/
lemma fromBytesLE_pair (a b : ℕ) : fromBytesLE [a, b] = a + 256 * b := by
  simp [fromBytesLE]

/-- For a service-data sequence of at least 14 bytes, every decoded field
is the offset-table value on the individual bytes. -/
lemma decode_fields_eq (adv : List ℕ) (h : 14 ≤ adv.length) :
    (decodeReading adv).temp = specSigned16LE (adv.getD 6 0) (adv.getD 7 0) ∧
    (decodeReading adv).humidity = specSigned16LE (adv.getD 8 0) (adv.getD 9 0) ∧
    (decodeReading adv).battery_v = adv.getD 10 0 + 256 * adv.getD 11 0 ∧
    (decodeReading adv).battery = adv.getD 12 0 ∧
    (decodeReading adv).count = adv.getD 13 0 := by
  have h68 : listSlice adv 6 8 = [adv.getD 6 0, adv.getD 7 0] :=
    listSlice_two adv 6 (by omega)
  have h810 : listSlice adv 8 10 = [adv.getD 8 0, adv.getD 9 0] :=
    listSlice_two adv 8 (by omega)
  have h1012 : listSlice adv 10 12 = [adv.getD 10 0, adv.getD 11 0] :=
    listSlice_two adv 10 (by omega)
  have h1213 : listSlice adv 12 13 = [adv.getD 12 0] :=
    listSlice_one adv 12 (by omega)
  have h1314 : listSlice adv 13 14 = [adv.getD 13 0] :=
    listSlice_one adv 13 (by omega)
  refine ⟨?_, ?_, ?_, ?_, ?_⟩ <;>
    simp [decodeReading, h68, h810, h1012, h1213, h1314,
      signedFromBytesLE_pair, fromBytesLE_pair, fromBytesLE_single]

/-- Bytes read off a list whose members are all below 256 are below 256. -/
lemma getD_lt_256 (adv : List ℕ) (hb : ∀ b ∈ adv, b < 256) (i : ℕ)
    (h : i < adv.length) : adv.getD i 0 < 256 := by
  rw [List.getD_eq_getElem adv 0 h]
  exact hb _ (List.getElem_mem h)

/-- The 16-bit signed reading of two genuine bytes lies in the int16
range. -/
lemma specSigned16LE_bounds (lo hi : ℕ) (hl : lo < 256) (hh : hi < 256) :
    -(32768 : ℤ) ≤ specSigned16LE lo hi ∧ specSigned16LE lo hi ≤ 32767 := by
  unfold specSigned16LE
  split_ifs with h <;> constructor <;> push_cast <;> omega

/-- C2: for every serviceData of at least 14 bytes, the decoded fields are
extracted bit-exactly per the offset table — temperature the signed LE
16-bit integer at offset 6 divided by 100, humidity the signed LE 16-bit
integer at offset 8 divided by 100, battery voltage the unsigned LE 16-bit
integer at offset 10 divided by 1000, battery percent the unsigned byte at
offset 12, sequence the unsigned byte at offset 13 (float divisions taken
as exact rationals). -/
theorem decode_field_extraction (adv : List ℕ) (h : 14 ≤ adv.length) :
    (decodeReading adv).temp = specSigned16LE (adv.getD 6 0) (adv.getD 7 0) ∧
    (decodeReading adv).humidity = specSigned16LE (adv.getD 8 0) (adv.getD 9 0) ∧
    (decodeReading adv).battery_v = adv.getD 10 0 + 256 * adv.getD 11 0 ∧
    (decodeReading adv).battery = adv.getD 12 0 ∧
    (decodeReading adv).count = adv.getD 13 0 ∧
    tempCelsius (decodeReading adv) =
      (specSigned16LE (adv.getD 6 0) (adv.getD 7 0) : ℚ) / 100 ∧
    humidityPercent (decodeReading adv) =
      (specSigned16LE (adv.getD 8 0) (adv.getD 9 0) : ℚ) / 100 ∧
    batteryVolts (decodeReading adv) =
      ((adv.getD 10 0 + 256 * adv.getD 11 0 : ℕ) : ℚ) / 1000 := by
  obtain ⟨h1, h2, h3, h4, h5⟩ := decode_fields_eq adv h
  exact ⟨h1, h2, h3, h4, h5,
    by rw [tempCelsius, h1],
    by rw [humidityPercent, h2],
    by rw [batteryVolts, h3]⟩

/-- Witness for C2 at the 14-byte fixture of spec §8: the sequence field
is the byte at offset 13. -/
theorem decode_field_extraction_witness :
    14 ≤ ([6, 0, 120, 120, 120, 9, 100, 0, 128, 25, 228, 13, 60, 1] :
      List ℕ).length ∧
    (decodeReading [6, 0, 120, 120, 120, 9, 100, 0, 128, 25, 228, 13, 60, 1]).count =
      ([6, 0, 120, 120, 120, 9, 100, 0, 128, 25, 228, 13, 60, 1] :
        List ℕ).getD 13 0 :=
  ⟨by decide,
    (decode_field_extraction
      [6, 0, 120, 120, 120, 9, 100, 0, 128, 25, 228, 13, 60, 1]
      (by decide)).2.2.2.2.1⟩

/-- C8 counterexample: a 14-byte payload whose byte at offset 12 is 255
decodes to battery percent 255, outside the claimed range [0, 100]. -/
theorem battery_percent_range_cex :
    (List.replicate 12 0 ++ [255, 0] : List ℕ).length = 14 ∧
    (decodeReading (List.replicate 12 0 ++ [255, 0])).battery = 255 ∧
    ¬(decodeReading (List.replicate 12 0 ++ [255, 0])).battery ≤ 100 := by
  decide

/-- C8 (amended): decode is deterministic, temperature and humidity lie in
[-327.68, 327.67], and battery percent lies in the full uint8 range
[0, 255] (the code leaves the byte unclamped). -/
theorem decode_deterministic_ranges (adv : List ℕ) (h14 : 14 ≤ adv.length)
    (hb : ∀ b ∈ adv, b < 256) :
    (∀ adv2, adv = adv2 → decodeReading adv = decodeReading adv2) ∧
    (-(32768 : ℚ) / 100 ≤ tempCelsius (decodeReading adv) ∧
      tempCelsius (decodeReading adv) ≤ (32767 : ℚ) / 100) ∧
    (-(32768 : ℚ) / 100 ≤ humidityPercent (decodeReading adv) ∧
      humidityPercent (decodeReading adv) ≤ (32767 : ℚ) / 100) ∧
    (decodeReading adv).battery ≤ 255 := by
  obtain ⟨h1, h2, _, h4, _⟩ := decode_fields_eq adv h14
  have b6 := getD_lt_256 adv hb 6 (by omega)
  have b7 := getD_lt_256 adv hb 7 (by omega)
  have b8 := getD_lt_256 adv hb 8 (by omega)
  have b9 := getD_lt_256 adv hb 9 (by omega)
  have b12 := getD_lt_256 adv hb 12 (by omega)
  obtain ⟨ht1, ht2⟩ := specSigned16LE_bounds _ _ b6 b7
  obtain ⟨hh1, hh2⟩ := specSigned16LE_bounds _ _ b8 b9
  refine ⟨fun adv2 he => he ▸ rfl, ⟨?_, ?_⟩, ⟨?_, ?_⟩, by omega⟩
  · rw [tempCelsius, h1]; gcongr; exact_mod_cast ht1
  · rw [tempCelsius, h1]; gcongr; exact_mod_cast ht2
  · rw [humidityPercent, h2]; gcongr; exact_mod_cast hh1
  · rw [humidityPercent, h2]; gcongr; exact_mod_cast hh2

/-- Witness for the amended C8 at a concrete 14-byte payload. -/
theorem decode_deterministic_ranges_witness :
    (14 ≤ (List.replicate 12 0 ++ [255, 0] : List ℕ).length ∧
      ∀ b ∈ (List.replicate 12 0 ++ [255, 0] : List ℕ), b < 256) ∧
    (decodeReading (List.replicate 12 0 ++ [255, 0])).battery ≤ 255 :=
  ⟨⟨by decide, by decide⟩,
    (decode_deterministic_ranges (List.replicate 12 0 ++ [255, 0])
      (by decide) (by decide)).2.2.2⟩

/-- C1 counterexample: a 13-byte (shorter than 14) all-zero serviceData is
not rejected by the callback — a reading is produced, the stored counter
and timestamp for the address are updated, and the render branch is
reached. -/
theorem short_payload_decoded_cex :
    (List.replicate 13 0 : List ℕ).length < 14 ∧
    ((callbackStep initState "A" (List.replicate 13 0) 0).1).isSome = true ∧
    (callbackStep initState "A" (List.replicate 13 0) 0).2.counters "A" = some 0 ∧
    ((callbackStep initState "A" (List.replicate 13 0) 0).2.dates "A").isSome = true := by
  decide

/-- C1 (amended): the callback rejects an advertisement without decoding
only when its serviceData is empty (`if not adv_atc`), leaving the
registry untouched and rendering nothing; every non-empty serviceData,
however short, is decoded by slice truncation, and when the sequence
counter differs from the stored one the registry is updated and the
reading rendered. -/
theorem empty_drops_nonempty_decodes (st : RegState) (addr : String)
    (adv : List ℕ) (now : ℚ) :
    (adv = [] → callbackStep st addr adv now = (none, st)) ∧
    (adv ≠ [] → st.counters addr ≠ some (decodeReading adv).count →
      ((callbackStep st addr adv now).1).isSome = true ∧
      (callbackStep st addr adv now).2.counters addr =
        some (decodeReading adv).count ∧
      (callbackStep st addr adv now).2.dates addr = some now) := by
  constructor
  · intro he
    simp [callbackStep, he]
  · intro hne hc
    simp [callbackStep, hne, updateOnSequenceChange, hc]

/-- Witness for the amended C1: the 13-byte all-zero payload is non-empty
and carries a fresh counter, so it is decoded and the registry updated. -/
theorem empty_drops_nonempty_decodes_witness :
    ((List.replicate 13 0 : List ℕ) ≠ [] ∧
      initState.counters "A" ≠
        some (decodeReading (List.replicate 13 0)).count) ∧
    (((callbackStep initState "A" (List.replicate 13 0) 0).1).isSome = true ∧
      (callbackStep initState "A" (List.replicate 13 0) 0).2.counters "A" =
        some (decodeReading (List.replicate 13 0)).count ∧
      (callbackStep initState "A" (List.replicate 13 0) 0).2.dates "A" =
        some 0) :=
  ⟨⟨by decide, by decide⟩,
    (empty_drops_nonempty_decodes initState "A" (List.replicate 13 0) 0).2
      (by decide) (by decide)⟩

/-- C3: the sequence-change update returns no result and leaves the state
untouched exactly when the reading's counter equals the stored one; on any
difference (first observation and 255 → 0 wrap-around included) it stores
the counter, stores the timestamp, and produces an update result. -/
theorem update_on_sequence_change_spec (st : RegState) (addr : String)
    (r : Reading) (now : ℚ) :
    ((updateOnSequenceChange st addr r now).1 = none ↔
      st.counters addr = some r.count) ∧
    (st.counters addr = some r.count →
      (updateOnSequenceChange st addr r now).2 = st) ∧
    (st.counters addr ≠ some r.count →
      ((updateOnSequenceChange st addr r now).1).isSome = true ∧
      (updateOnSequenceChange st addr r now).2.counters addr = some r.count ∧
      (updateOnSequenceChange st addr r now).2.dates addr = some now) := by
  by_cases hc : st.counters addr = some r.count
  · refine ⟨⟨fun _ => hc, fun _ => ?_⟩, fun _ => ?_, fun hn => absurd hc hn⟩ <;>
      simp [updateOnSequenceChange, hc]
  · refine ⟨⟨fun hnone => ?_, fun h => absurd h hc⟩,
      fun h => absurd h hc, fun _ => ?_⟩
    · simp [updateOnSequenceChange, hc] at hnone
    · refine ⟨?_, ?_, ?_⟩ <;> simp [updateOnSequenceChange, hc]

/-- Witness for C3 at the 255 → 0 wrap-around: stored counter 255,
incoming counter 0 — treated as a change and stored. -/
theorem update_on_sequence_change_spec_witness :
    ((⟨fun _ => some 255, fun _ => some 0⟩ : RegState).counters "A" ≠
      some (⟨0, 0, 0, 0, 0⟩ : Reading).count) ∧
    (((updateOnSequenceChange ⟨fun _ => some 255, fun _ => some 0⟩ "A"
        ⟨0, 0, 0, 0, 0⟩ 1).1).isSome = true ∧
      (updateOnSequenceChange ⟨fun _ => some 255, fun _ => some 0⟩ "A"
        ⟨0, 0, 0, 0, 0⟩ 1).2.counters "A" =
        some (⟨0, 0, 0, 0, 0⟩ : Reading).count ∧
      (updateOnSequenceChange ⟨fun _ => some 255, fun _ => some 0⟩ "A"
        ⟨0, 0, 0, 0, 0⟩ 1).2.dates "A" = some 1) :=
  ⟨by decide,
    (update_on_sequence_change_spec ⟨fun _ => some 255, fun _ => some 0⟩ "A"
      ⟨0, 0, 0, 0, 0⟩ 1).2.2 (by decide)⟩

/-- C4: at the default `consoleWindows` configuration on a 120×40 terminal
(4 windows fit per row), `add_window` places slot 4 — the slot whose id
equals the column count — at the same `y` as slot 0 and one cell to the
right, not one row below: the `x` coordinate uses `width * window_row`
and the `y` coordinate `height * window_col`, transposing the grid
formula that main.py's inline placement (`posx = text_width * (id % cols)`,
`posy = text_hight * (id // cols) + 1`) implements. -/
theorem add_window_row_col_transposed :
    120 / (0 + 21 + 9) = 4 ∧
    addWindowPlace ⟨0, 0, 9, 0, 120, 40⟩ 21 5 0 = some (9, 0) ∧
    addWindowPlace ⟨0, 0, 9, 0, 120, 40⟩ 21 5 4 = some (30, 0) ∧
    (addWindowPlace ⟨0, 0, 9, 0, 120, 40⟩ 21 5 4 ≠ some (9, 0 + 5)) ∧
    mainGridPlace 35 13 4 0 = (0, 1) ∧
    mainGridPlace 35 13 4 4 = (0, 1 + 13) := by
  decide

/-- C5: `print_line` hands the window-local cursor to the print sink, not
the absolute screen coordinate: for the window with panel origin (5, 3)
and cursor (0, 0), the sink receives position (0, 0) and the text prefixed
with those local coordinates, while `get_abs_pos` (defined at outputs.py
277–279 but never called by `print_line`) yields (5, 3); afterwards the
cursor is at column 0, one line down. -/
theorem print_line_uses_local_pos :
    (printLine ⟨0, 21, 10, 5, 3, ⟨0, 0⟩, 1⟩ none "T").2.2 = ⟨0, 0⟩ ∧
    getAbsPos ⟨0, 21, 10, 5, 3, ⟨0, 0⟩, 1⟩ = ⟨5, 3⟩ ∧
    (printLine ⟨0, 21, 10, 5, 3, ⟨0, 0⟩, 1⟩ none "T").2.2 ≠
      getAbsPos ⟨0, 21, 10, 5, 3, ⟨0, 0⟩, 1⟩ ∧
    (printLine ⟨0, 21, 10, 5, 3, ⟨0, 0⟩, 1⟩ none "T").2.1 = "[0, 0] T" ∧
    (printLine ⟨0, 21, 10, 5, 3, ⟨0, 0⟩, 1⟩ none "T").1.pos = ⟨0, 1⟩ := by
  refine ⟨rfl, by decide, by decide, rfl, by decide⟩

/-- C6: the asynchronous print sink's worker performs the writes in exactly
the enqueue order, and because `close()` appends the `None` sentinel and
waits for the worker, every text enqueued before the close is delivered:
the recorded output on the queue `msgs ++ [sentinel]` is exactly `msgs`. -/
theorem print_worker_fifo_flush (msgs : List String) :
    printWorker (closeQueue msgs) = msgs := by
  induction msgs with
  | nil => rfl
  | cons m rest ih =>
    simpa [printWorker, closeQueue] using ih

/-- `Rat.floor` agrees with the floor of the archimedean order structure. -/
lemma ratFloor_eq_intFloor (q : ℚ) : q.floor = ⌊q⌋ := by
  rw [Rat.floor_def', Rat.floor_def]

/-- The numerator of a rational is the rational times its denominator. -/
lemma num_eq_mul_den (q : ℚ) : (q.num : ℚ) = q * (q.den : ℚ) := by
  have hden : ((q.den : ℚ)) ≠ 0 := by
    exact_mod_cast q.den_nz
  exact (div_eq_iff hden).mp (Rat.num_div_den q)

/-- The integer `q.num - ⌊q⌋ * q.den` is the fractional part scaled by the
denominator. -/
lemma num_sub_floor_mul_den (q : ℚ) :
    ((q.num - ⌊q⌋ * (q.den : ℤ) : ℤ) : ℚ) = (q.den : ℚ) * Int.fract q := by
  push_cast
  rw [num_eq_mul_den q, Int.fract]
  ring

/-- `pythonRound` returns a nearest integer: it never deviates from its
argument by more than half. -/
lemma pythonRound_nearest (q : ℚ) : |q - (pythonRound q : ℚ)| ≤ 1 / 2 := by
  have hdpos : (0 : ℚ) < (q.den : ℚ) := by
    exact_mod_cast q.pos
  have hkey := num_sub_floor_mul_den q
  have hfr0 : 0 ≤ Int.fract q := Int.fract_nonneg q
  have hfr1 : Int.fract q < 1 := Int.fract_lt_one q
  have hsub : q - (⌊q⌋ : ℚ) = Int.fract q := Int.self_sub_floor q
  have hsub1 : q - ((⌊q⌋ + 1 : ℤ) : ℚ) = Int.fract q - 1 := by
    push_cast
    rw [← hsub]
    ring
  rw [pythonRound, ratFloor_eq_intFloor]
  split_ifs with h1 h2 h3
  · have h1q : 2 * ((q.num - ⌊q⌋ * (q.den : ℤ) : ℤ) : ℚ) < (q.den : ℚ) := by
      exact_mod_cast h1
    rw [hkey] at h1q
    have : Int.fract q < 1 / 2 := by nlinarith
    rw [hsub, abs_le]
    constructor <;> linarith
  · have h2q : (q.den : ℚ) < 2 * ((q.num - ⌊q⌋ * (q.den : ℤ) : ℤ) : ℚ) := by
      exact_mod_cast h2
    rw [hkey] at h2q
    have : 1 / 2 < Int.fract q := by nlinarith
    rw [hsub1, abs_le]
    constructor <;> linarith
  · have heq : 2 * ((q.num - ⌊q⌋ * (q.den : ℤ) : ℤ) : ℚ) = (q.den : ℚ) := by
      exact_mod_cast le_antisymm (not_lt.mp h2) (not_lt.mp h1)
    rw [hkey] at heq
    have h2f : 2 * Int.fract q = 1 :=
      mul_left_cancel₀ (ne_of_gt hdpos) (by linear_combination heq)
    have : Int.fract q = 1 / 2 := by linarith
    rw [hsub, abs_le]
    constructor <;> linarith
  · have heq : 2 * ((q.num - ⌊q⌋ * (q.den : ℤ) : ℤ) : ℚ) = (q.den : ℚ) := by
      exact_mod_cast le_antisymm (not_lt.mp h2) (not_lt.mp h1)
    rw [hkey] at heq
    have h2f : 2 * Int.fract q = 1 :=
      mul_left_cancel₀ (ne_of_gt hdpos) (by linear_combination heq)
    have : Int.fract q = 1 / 2 := by linarith
    rw [hsub1, abs_le]
    constructor <;> linarith

/-- C9: whenever an update result is produced, the elapsed duration is
absent on the device's first recorded reading, and otherwise equals the
wall-clock time since that device's previous accepted update rounded to a
nearest whole second (within half a second of the true difference). -/
theorem elapsed_duration_spec (st : RegState) (addr : String) (r : Reading)
    (now : ℚ) (res : UpdateResult)
    (hres : (updateOnSequenceChange st addr r now).1 = some res) :
    (st.dates addr = none → res.elapsed = none) ∧
    (∀ prev, st.dates addr = some prev →
      res.elapsed = some (pythonRound (now - prev)) ∧
      |now - prev - (pythonRound (now - prev) : ℚ)| ≤ 1 / 2) := by
  by_cases hc : st.counters addr = some r.count
  · rw [updateOnSequenceChange, if_pos hc] at hres
    exact absurd hres (by simp)
  · rw [updateOnSequenceChange, if_neg hc] at hres
    have hres' :
        some (⟨r, (st.dates addr).map fun prev => pythonRound (now - prev),
          now⟩ : UpdateResult) = some res := hres
    obtain rfl := Option.some.inj hres'
    constructor
    · intro hd
      simp [hd]
    · intro prev hd
      exact ⟨by simp [hd], pythonRound_nearest _⟩

/-- Witness for C9: previous update at time 0, current at 3.5 seconds —
the elapsed duration is `pythonRound (7/2)` and is within half a second
of the true difference. -/
theorem elapsed_duration_spec_witness :
    (updateOnSequenceChange ⟨fun _ => some 1, fun _ => some 0⟩ "A"
      ⟨0, 0, 0, 0, 0⟩ (Rat.divInt 7 2)).1 =
      some ⟨⟨0, 0, 0, 0, 0⟩, some (pythonRound (Rat.divInt 7 2 - 0)),
        Rat.divInt 7 2⟩ ∧
    (⟨fun _ => some 1, fun _ => some 0⟩ : RegState).dates "A" = some 0 ∧
    ((⟨⟨0, 0, 0, 0, 0⟩, some (pythonRound (Rat.divInt 7 2 - 0)),
        Rat.divInt 7 2⟩ : UpdateResult).elapsed =
      some (pythonRound (Rat.divInt 7 2 - 0)) ∧
      |Rat.divInt 7 2 - 0 - (pythonRound (Rat.divInt 7 2 - 0) : ℚ)| ≤ 1 / 2) :=
  ⟨rfl, rfl,
    (elapsed_duration_spec ⟨fun _ => some 1, fun _ => some 0⟩ "A"
      ⟨0, 0, 0, 0, 0⟩ (Rat.divInt 7 2)
      ⟨⟨0, 0, 0, 0, 0⟩, some (pythonRound (Rat.divInt 7 2 - 0)),
        Rat.divInt 7 2⟩ rfl).2 0 rfl⟩

/-- C10: for an accepted update, the Duration line is rendered
(`if date_diff:` is truthy) exactly when a previous reading exists for
the device and the elapsed time rounded to whole seconds is nonzero; a
zero rounded duration is suppressed just like a first observation. -/
theorem duration_line_rendered_iff (st : RegState) (addr : String)
    (r : Reading) (now : ℚ) (res : UpdateResult)
    (hres : (updateOnSequenceChange st addr r now).1 = some res) :
    dateDiffTruthy res.elapsed = true ↔
      ∃ prev, st.dates addr = some prev ∧ pythonRound (now - prev) ≠ 0 := by
  by_cases hc : st.counters addr = some r.count
  · rw [updateOnSequenceChange, if_pos hc] at hres
    exact absurd hres (by simp)
  · rw [updateOnSequenceChange, if_neg hc] at hres
    have hres' :
        some (⟨r, (st.dates addr).map fun prev => pythonRound (now - prev),
          now⟩ : UpdateResult) = some res := hres
    obtain rfl := Option.some.inj hres'
    cases hd : st.dates addr with
    | none => simp [dateDiffTruthy, hd]
    | some prev => simp [dateDiffTruthy, hd]

/-- Witness for C10: with a previous update at time 0 and the current one
at 3.5 seconds, the rendering condition holds exactly when the rounded
difference is nonzero. -/
theorem duration_line_rendered_iff_witness :
    (updateOnSequenceChange ⟨fun _ => some 1, fun _ => some 0⟩ "B"
      ⟨0, 0, 0, 0, 0⟩ (Rat.divInt 7 2)).1 =
      some ⟨⟨0, 0, 0, 0, 0⟩, some (pythonRound (Rat.divInt 7 2 - 0)),
        Rat.divInt 7 2⟩ ∧
    (dateDiffTruthy (⟨⟨0, 0, 0, 0, 0⟩,
        some (pythonRound (Rat.divInt 7 2 - 0)),
        Rat.divInt 7 2⟩ : UpdateResult).elapsed = true ↔
      ∃ prev, (⟨fun _ => some 1, fun _ => some 0⟩ : RegState).dates "B" =
        some prev ∧ pythonRound (Rat.divInt 7 2 - prev) ≠ 0) :=
  ⟨rfl,
    duration_line_rendered_iff ⟨fun _ => some 1, fun _ => some 0⟩ "B"
      ⟨0, 0, 0, 0, 0⟩ (Rat.divInt 7 2)
      ⟨⟨0, 0, 0, 0, 0⟩, some (pythonRound (Rat.divInt 7 2 - 0)),
        Rat.divInt 7 2⟩ rfl⟩

/-- A clipped position lies inside the panel whenever the panel has
positive width and height. -/
lemma clipWindowPos_bounds (w : Window) (p : Pos) (hw : 1 ≤ w.width)
    (hh : 1 ≤ w.height) :
    0 ≤ (clipWindowPos w p).x ∧ (clipWindowPos w p).x < w.width ∧
    0 ≤ (clipWindowPos w p).y ∧ (clipWindowPos w p).y < w.height := by
  simp only [clipWindowPos]
  omega

/-- `print_line` never changes the panel width. -/
lemma printLine_width (w : Window) (pa : Option Pos) (t : String) :
    ((printLine w pa t).1).width = w.width := by
  cases pa <;> rfl

/-- `print_line` never changes the panel height. -/
lemma printLine_height (w : Window) (pa : Option Pos) (t : String) :
    ((printLine w pa t).1).height = w.height := by
  cases pa <;> rfl

/-- After a single `print_line`, the cursor lies inside the panel. -/
lemma printLine_pos_bounds (w : Window) (pa : Option Pos) (t : String)
    (hw : 1 ≤ w.width) (hh : 1 ≤ w.height) :
    0 ≤ ((printLine w pa t).1).pos.x ∧
    ((printLine w pa t).1).pos.x < w.width ∧
    0 ≤ ((printLine w pa t).1).pos.y ∧
    ((printLine w pa t).1).pos.y < w.height := by
  cases pa with
  | none => exact clipWindowPos_bounds w _ hw hh
  | some p => exact clipWindowPos_bounds { w with pos := clipWindowPos w p } _ hw hh

/-- Unfolding one call of a `print_line` sequence. -/
lemma runCalls_cons (w : Window) (c : PrintCall) (rest : List PrintCall) :
    runCalls w (c :: rest) = runCalls ((printLine w c.posArg c.text).1) rest :=
  rfl

/-- C7: for every window of positive width and height and every non-empty
sequence of `print_line` calls (with or without explicit positions), the
cursor after the calls satisfies `0 ≤ x < width` and `0 ≤ y < height` —
overflow sticks at the clipped last row instead of wrapping or erroring. -/
theorem window_cursor_in_bounds (w : Window) (calls : List PrintCall)
    (hw : 1 ≤ w.width) (hh : 1 ≤ w.height) (hne : calls ≠ []) :
    0 ≤ (runCalls w calls).pos.x ∧ (runCalls w calls).pos.x < w.width ∧
    0 ≤ (runCalls w calls).pos.y ∧ (runCalls w calls).pos.y < w.height := by
  induction calls generalizing w with
  | nil => exact absurd rfl hne
  | cons c rest ih =>
    rw [runCalls_cons]
    cases rest with
    | nil => exact printLine_pos_bounds w c.posArg c.text hw hh
    | cons c2 t =>
      have hvw := printLine_width w c.posArg c.text
      have hvh := printLine_height w c.posArg c.text
      have hres := ih ((printLine w c.posArg c.text).1)
        (by rw [hvw]; exact hw) (by rw [hvh]; exact hh)
        (List.cons_ne_nil c2 t)
      rw [hvw, hvh] at hres
      exact hres

/-- Witness for C7: two calls — one plain, one jumping to an out-of-bounds
position — end with the cursor inside the 21×10 panel. -/
theorem window_cursor_in_bounds_witness :
    (1 ≤ (⟨0, 21, 10, 5, 3, ⟨0, 0⟩, 1⟩ : Window).width ∧
      1 ≤ (⟨0, 21, 10, 5, 3, ⟨0, 0⟩, 1⟩ : Window).height ∧
      ([⟨none, "a"⟩, ⟨some ⟨50, -7⟩, "b"⟩] : List PrintCall) ≠ []) ∧
    (0 ≤ (runCalls ⟨0, 21, 10, 5, 3, ⟨0, 0⟩, 1⟩
        [⟨none, "a"⟩, ⟨some ⟨50, -7⟩, "b"⟩]).pos.x ∧
      (runCalls ⟨0, 21, 10, 5, 3, ⟨0, 0⟩, 1⟩
        [⟨none, "a"⟩, ⟨some ⟨50, -7⟩, "b"⟩]).pos.x <
        (⟨0, 21, 10, 5, 3, ⟨0, 0⟩, 1⟩ : Window).width ∧
      0 ≤ (runCalls ⟨0, 21, 10, 5, 3, ⟨0, 0⟩, 1⟩
        [⟨none, "a"⟩, ⟨some ⟨50, -7⟩, "b"⟩]).pos.y ∧
      (runCalls ⟨0, 21, 10, 5, 3, ⟨0, 0⟩, 1⟩
        [⟨none, "a"⟩, ⟨some ⟨50, -7⟩, "b"⟩]).pos.y <
        (⟨0, 21, 10, 5, 3, ⟨0, 0⟩, 1⟩ : Window).height) :=
  ⟨⟨by decide, by decide, by decide⟩,
    window_cursor_in_bounds ⟨0, 21, 10, 5, 3, ⟨0, 0⟩, 1⟩
      [⟨none, "a"⟩, ⟨some ⟨50, -7⟩, "b"⟩] (by decide) (by decide) (by decide)⟩

end MiTherm
